import Mathlib

/-!
Shallow embedding of the static-site build pipeline in `scripts/build.js`
(class `SiteBuilder`).  JavaScript strings are modelled as Lean `String`
(lists of characters; the model works at the character level, so UTF-16
surrogate-pair length differences and exotic Unicode case mappings are out
of scope — none of the verified properties depend on them).  Optional
record fields are `Option String`; JavaScript truthiness on strings
(`undefined`, `null` and `""` are falsy) is modelled explicitly.
-/

/-- An article record as read from `articles.json`.  All fields are
optional (`build.js` tolerates absence of every field).  Only the fields
the build script reads are modelled. -/
structure Article where
  slug : Option String
  id : Option String
  title : Option String
  content : Option String
  excerpt : Option String
  author : Option String
  date : Option String
  published_at : Option String
  image : Option String
  category : Option String
  deriving DecidableEq, Repr

/-- The article record with every field absent. -/
def emptyArticle : Article :=
  ⟨none, none, none, none, none, none, none, none, none, none⟩

/-- JavaScript truthiness of an optional string field: `undefined` and
`""` are falsy, every other string is truthy. -/
def truthy : Option String → Bool
  | none => false
  | some s => !s.isEmpty

/-- `x || y` for an optional string field `x` and a string default `y`
(JavaScript returns `y` when `x` is absent or empty). -/
def jsOrStr (x : Option String) (y : String) : String :=
  match x with
  | some s => if s.isEmpty then y else s
  | none => y

/-- `x || y` where both operands are optional string fields; `none` when
both are falsy. -/
def jsOrOpt (x y : Option String) : Option String :=
  if truthy x then x else if truthy y then y else none

/-- Template-literal interpolation `${field}` of a possibly-absent field:
JavaScript renders `undefined` as the string "undefined". -/
def jsTemplate : Option String → String
  | none => "undefined"
  | some s => s

/-- Character class of the regex `[a-z0-9]` in `getArticleSlug`
(character codes 97–122 and 48–57). -/
def isSlugChar (c : Char) : Bool :=
  (97 ≤ c.toNat && c.toNat ≤ 122) || (48 ≤ c.toNat && c.toNat ≤ 57)

/-- `String#replace(/[^a-z0-9]+/g, '-')`: every maximal run of
non-`[a-z0-9]` characters becomes a single hyphen.  The flag records
whether the scanner is inside such a run (whose hyphen is already
emitted). -/
def collapseAux : Bool → List Char → List Char
  | _, [] => []
  | inRun, c :: cs =>
    if isSlugChar c then c :: collapseAux false cs
    else if inRun then collapseAux true cs
    else '-' :: collapseAux true cs

/-- `String#replace(/[^a-z0-9]+/g, '-')` on a character list. -/
def collapseRuns (cs : List Char) : List Char :=
  collapseAux false cs

/-- The `^-` alternative of `replace(/^-|-$/g, '')`: removes one leading
hyphen. -/
def dropLeadHyphen : List Char → List Char
  | [] => []
  | c :: cs => if c = '-' then cs else c :: cs

/-- The `-$` alternative of `replace(/^-|-$/g, '')`: removes one trailing
hyphen. -/
def dropTrailHyphen : List Char → List Char
  | [] => []
  | [c] => if c = '-' then [] else [c]
  | c :: cs => c :: dropTrailHyphen cs

/-- `String#toLowerCase`, modelled per character (basic-latin case
mapping; sufficient for the slug alphabet). -/
def lowerL (cs : List Char) : List Char :=
  cs.map Char.toLower

/-- The slug normalisation chain of `getArticleSlug`:
`.toLowerCase().replace(/[^a-z0-9]+/g, '-').replace(/^-|-$/g, '')`. -/
def slugify (s : String) : String :=
  String.mk (dropTrailHyphen (dropLeadHyphen (collapseRuns (lowerL s.toList))))

/-- `getArticleSlug` (build.js:114–119):
`(article.slug || article.id || article.title || 'untitled')` followed by
the normalisation chain. -/
def getArticleSlug (a : Article) : String :=
  slugify (jsOrStr a.slug (jsOrStr a.id (jsOrStr a.title "untitled")))

/-- Matcher for the spec pattern `[a-z0-9]+(-[a-z0-9]+)*`.  The flag is
true when at least one `[a-z0-9]` character of the current token has been
read (so a hyphen or the end of input is acceptable). -/
def slugMatchAux : Bool → List Char → Bool
  | inTok, [] => inTok
  | inTok, c :: cs =>
    if isSlugChar c then slugMatchAux true cs
    else if c = '-' then inTok && slugMatchAux false cs
    else false

/-- `cs` matches the spec pattern `[a-z0-9]+(-[a-z0-9]+)*`. -/
def matchesSlug (cs : List Char) : Bool :=
  slugMatchAux false cs

/-- `String#includes(c)` for a single character. -/
def hasChar (c : Char) : List Char → Bool
  | [] => false
  | d :: cs => d == c || hasChar c cs

/-- The whitespace class of `String#trim` (the common ASCII whitespace
characters; the exotic Unicode space characters JavaScript also trims are
immaterial to the claims). -/
def isWS (c : Char) : Bool :=
  c == ' ' || c == '\t' || c == '\n' || c == '\r'

/-- `String#trim` on a character list. -/
def trimL (cs : List Char) : List Char :=
  ((cs.dropWhile isWS).reverse.dropWhile isWS).reverse

/-- `String#split('\n\n')`: split on each non-overlapping occurrence of a
double newline, scanning left to right. -/
def splitOnNN : List Char → List (List Char)
  | [] => [[]]
  | [c] => [[c]]
  | c :: d :: rest =>
    if c = '\n' && d = '\n' then [] :: splitOnNN rest
    else
      match splitOnNN (d :: rest) with
      | [] => [[c]]
      | p :: ps => (c :: p) :: ps

/-- The paragraph wrapper of `formatContent`: `` `<p>${p.trim()}</p>` ``. -/
def wrapParagraph (p : List Char) : List Char :=
  "<p>".toList ++ trimL p ++ "</p>".toList

/-- `formatContent` (build.js:353–362): empty/absent content yields `""`;
content without `'<'` is split on double newlines, each segment trimmed
and wrapped in `<p>…</p>` and the results concatenated; content
containing `'<'` is returned unchanged. -/
def formatContent : Option String → String
  | none => ""
  | some c =>
    if c.isEmpty then ""
    else if hasChar '<' c.toList then c
    else String.mk (((splitOnNN c.toList).map wrapParagraph).flatten)

/-- The tag-stripping regex `replace(/<[^>]*>/g, '')` of `extractExcerpt`
as a scanner.  State `none`: outside a tag.  State `some buf`: the
scanner has read `'<'` and the (reversed) characters `buf` without yet
finding `'>'`; if the input ends in that state the regex never matched,
so the buffered characters are emitted verbatim. -/
def stripTagsAux : Option (List Char) → List Char → List Char
  | none, [] => []
  | some buf, [] => buf.reverse
  | none, c :: cs =>
    if c = '<' then stripTagsAux (some [c]) cs
    else c :: stripTagsAux none cs
  | some buf, c :: cs =>
    if c = '>' then stripTagsAux none cs
    else stripTagsAux (some (c :: buf)) cs

/-- `content.replace(/<[^>]*>/g, '')` on a character list. -/
def stripTags (cs : List Char) : List Char :=
  stripTagsAux none cs

/-- The local `text` of `extractExcerpt`:
`content.replace(/<[^>]*>/g, '').trim()`. -/
def strippedText (c : String) : List Char :=
  trimL (stripTags c.toList)

/-- `extractExcerpt` (build.js:347–351).  The `length` parameter is 150
at every call site, so it is inlined.  `!content` is true for an absent
or empty content string. -/
def extractExcerpt (content : Option String) : String :=
  match content with
  | none => ""
  | some c =>
    if c.isEmpty then ""
    else
      let text := strippedText c
      if 150 < text.length then String.mk (text.take 150) ++ "..." else String.mk text

/-- The tag-stripped, trimmed content an excerpt is derived from (`[]`
for absent or empty content). -/
def strippedOf : Option String → List Char
  | none => []
  | some c => if c.isEmpty then [] else strippedText c

/-- The rendered excerpt ends with the three-character ellipsis. -/
def endsWithEllipsis (s : String) : Bool :=
  s.toList.reverse.take 3 == ['.', '.', '.']

/-- Proleptic-Gregorian leap-year test. -/
def isLeapYear (y : Nat) : Bool :=
  (y % 4 == 0 && y % 100 != 0) || y % 400 == 0

/-- Number of leap years in `[1, y]`. -/
def leapCount (y : Nat) : Nat :=
  y / 4 - y / 100 + y / 400

/-- Days before the first of the given month in a non-leap year. -/
def monthOffset : Nat → Nat
  | 1 => 0 | 2 => 31 | 3 => 59 | 4 => 90 | 5 => 120 | 6 => 151
  | 7 => 181 | 8 => 212 | 9 => 243 | 10 => 273 | 11 => 304 | _ => 334

/-- Days in the given month of the given year. -/
def daysInMonth (y m : Nat) : Nat :=
  if m = 2 then (if isLeapYear y then 29 else 28)
  else if m = 4 || m = 6 || m = 9 || m = 11 then 30
  else 31

/-- Civil days since 1970-01-01 (valid for `y ≥ 1970`). -/
def epochDays (y m d : Nat) : Nat :=
  365 * (y - 1970) + (leapCount (y - 1) - leapCount 1969) + monthOffset m +
    (if 3 ≤ m && isLeapYear y then 1 else 0) + (d - 1)

/-- Decimal digit value of a character. -/
def digitVal (c : Char) : Nat :=
  c.toNat - 48

/-- Modelled: the host `new Date(string)` parser (a collaborator outside
`build.js`), restricted to calendar dates `YYYY-MM-DD` with valid
components from 1970 on; every other input is an invalid date (`none`,
the model of `NaN`).  The build's date comparisons and the claims only
exercise this range. -/
def jsDateParseL : List Char → Option Int
  | [y3, y2, y1, y0, '-', m1, m0, '-', d1, d0] =>
    if (y3.isDigit && y2.isDigit && y1.isDigit && y0.isDigit &&
        m1.isDigit && m0.isDigit && d1.isDigit && d0.isDigit) then
      let y := 1000 * digitVal y3 + 100 * digitVal y2 + 10 * digitVal y1 + digitVal y0
      let m := 10 * digitVal m1 + digitVal m0
      let d := 10 * digitVal d1 + digitVal d0
      if 1970 ≤ y && 1 ≤ m && m ≤ 12 && 1 ≤ d && d ≤ daysInMonth y m then
        some (86400000 * (epochDays y m d : Int))
      else none
    else none
  | _ => none

/-- `new Date(s).getTime()` for a string argument (millis, `none` for an
invalid date). -/
def jsDateParse (s : String) : Option Int :=
  jsDateParseL s.toList

/-- The shared subexpression
`new Date(article.date || article.published_at || Date.now())` of
`getArticlePageHTML` (build.js:294), `getHomePageHTML` and `getRSSFeed`
(build.js:367): `now` is the `Date.now()` timestamp, the result the
resolved time value (`none` for an invalid date). -/
def articleDateValue (a : Article) (now : Int) : Option Int :=
  match jsOrOpt a.date a.published_at with
  | some s => jsDateParse s
  | none => some now

/-- The sort key `new Date(x.date || x.published_at || 0)` of the
comparator in `loadArticles` (build.js:57): the fallback is the epoch,
not the current time. -/
def sortKey (a : Article) : Option Int :=
  match jsOrOpt a.date a.published_at with
  | some s => jsDateParse s
  | none => some 0

/-- Totalised sort key.  An unparseable date makes the JavaScript
comparator return `NaN`, which `Array#sort` treats as `0`; the model
totalises with key `0` and the sorting theorem assumes every date is
parseable or absent. -/
def sortKeyD (a : Article) : Int :=
  (sortKey a).getD 0

/-- The ordering realised by the comparator
`(a, b) => new Date(b…) - new Date(a…)`: `a` precedes `b` when the
comparator is `≤ 0`, i.e. descending by date. -/
def articleGE (a b : Article) : Prop :=
  sortKeyD b ≤ sortKeyD a

instance : DecidableRel articleGE :=
  fun a b => inferInstanceAs (Decidable (sortKeyD b ≤ sortKeyD a))

instance : IsTotal Article articleGE :=
  ⟨fun a b =>
    show sortKeyD b ≤ sortKeyD a ∨ sortKeyD a ≤ sortKeyD b from
      Int.le_total (sortKeyD b) (sortKeyD a)⟩

instance : IsTrans Article articleGE :=
  ⟨fun _ _ _ h1 h2 => le_trans h2 h1⟩

/-- `articles.sort(comparator)` of `loadArticles`.  `Array#sort` is a
stable sort; `List.insertionSort` with this total preorder is stable, so
the observable result coincides. -/
def sortArticles (l : List Article) : List Article :=
  l.insertionSort articleGE

/-- `createSampleArticles` (build.js:64–76); `nowIso` models
`new Date().toISOString()`. -/
def createSampleArticles (nowIso : String) : List Article :=
  [{ emptyArticle with
      id := some "sample-article",
      title := some "Welcome to Your Automated Content Site",
      content := some "This is a sample article. Update your articles.json file to add your own content!",
      date := some nowIso,
      author := some "Site Builder",
      image := none,
      excerpt := some "Get started with your automated content management system." }]

/-- Outcome of the `fs.readFile` + `JSON.parse` head of the `try` block
of `loadArticles`: `error` when either throws (a missing file rejects the
read; malformed JSON makes `JSON.parse` throw a `SyntaxError` — both are
raised inside the same `try`). -/
inductive ParseOutcome where
  | error (msg : String)
  | ok (articles : List Article)
  deriving DecidableEq, Repr

/-- `loadArticles` (build.js:51–62): on success the parsed articles are
sorted newest-first; any throw inside the `try` block lands in the
`catch`, which logs a warning and returns `createSampleArticles()` — the
function itself never throws, so the surrounding build continues. -/
def loadArticles (r : ParseOutcome) (nowIso : String) : List Article :=
  match r with
  | .ok arts => sortArticles arts
  | .error _ => createSampleArticles nowIso

/-- The CDATA wrapper `<![CDATA[${text}]]>` used for the title and
description of each feed item (build.js:371,373). -/
def cdata (s : String) : String :=
  "<![CDATA[" ++ s ++ "]]>"

/-- Modelled: the host `Date#toUTCString` (a collaborator outside
`build.js`); the claims never inspect the rendered date text, so the
rendering is an arbitrary injective image of the time value. -/
def toUTCStringModel : Option Int → String
  | none => "Invalid Date"
  | some ms => "@" ++ toString ms

/-- One `<item>` element of the feed (the body of the `map` at
build.js:365–378). -/
def rssItem (a : Article) (now : Int) : String :=
  "\n        <item>\n            <title>" ++ cdata (jsTemplate a.title) ++
  "</title>\n            <link>articles/" ++ getArticleSlug a ++
  ".html</link>\n            <description>" ++
  cdata (jsOrStr a.excerpt (extractExcerpt a.content)) ++
  "</description>\n            <pubDate>" ++
  toUTCStringModel (articleDateValue a now) ++
  "</pubDate>\n            <guid>articles/" ++ getArticleSlug a ++
  ".html</guid>\n        </item>\n      "

/-- `const items = articles.slice(0, 20).map(…)` of `getRSSFeed`
(build.js:365). -/
def rssFeedItems (l : List Article) (now : Int) : List String :=
  (l.take 20).map (fun a => rssItem a now)

/-- `getRSSFeed` (build.js:364–390). -/
def getRSSFeed (l : List Article) (now : Int) : String :=
  "<?xml version=\"1.0\" encoding=\"UTF-8\"?>\n<rss version=\"2.0\">\n    <channel>\n        <title>Daily Content Hub</title>\n        <description>Your automated content management system</description>\n        <link>/</link>\n        <lastBuildDate>" ++
  toUTCStringModel (some now) ++ "</lastBuildDate>\n        " ++
  String.join (rssFeedItems l now) ++ "\n    </channel>\n</rss>"

/-- `pat` is an initial segment of the list. -/
def leadsWith : List Char → List Char → Bool
  | [], _ => true
  | _ :: _, [] => false
  | p :: ps, c :: cs => p == c && leadsWith ps cs

/-- `pat` occurs as a contiguous substring. -/
def containsSub (pat : List Char) : List Char → Bool
  | [] => leadsWith pat []
  | c :: cs => leadsWith pat (c :: cs) || containsSub pat cs

/-- Split at the first occurrence of `pat`: `some (before, after)` with
`before ++ pat ++ after` the input, `none` when `pat` does not occur. -/
def splitFirst (pat : List Char) : List Char → Option (List Char × List Char)
  | [] => if leadsWith pat [] then some ([], ([] : List Char).drop pat.length) else none
  | c :: cs =>
    if leadsWith pat (c :: cs) then some ([], (c :: cs).drop pat.length)
    else
      match splitFirst pat cs with
      | some (b, a) => some (c :: b, a)
      | none => none

/-- The CDATA terminator `]]>`. -/
def cdataTerm : List Char :=
  [']', ']', '>']

/-- How an XML reader consumes a CDATA section: after the `<![CDATA[`
marker, the section's literal text runs to the *first* `]]>`;
`some (text, rest)` returns that text and whatever input follows the
terminator. -/
def cdataParse (s : String) : Option (String × String) :=
  if leadsWith "<![CDATA[".toList s.toList then
    match splitFirst cdataTerm (s.toList.drop 9) with
    | some (body, rest) => some (String.mk body, String.mk rest)
    | none => none
  else none

/-! ## Invariants of the slug normalisation chain -/

/-- No two adjacent hyphens. -/
def noAdj : List Char → Bool
  | a :: b :: rest => !(a == '-' && b == '-') && noAdj (b :: rest)
  | _ => true

theorem noAdj_nil : noAdj [] = true := rfl

theorem noAdj_singleton (c : Char) : noAdj [c] = true := rfl

theorem noAdj_cons_cons (a b : Char) (l : List Char) :
    noAdj (a :: b :: l) = (!(a == '-' && b == '-') && noAdj (b :: l)) := rfl

theorem noAdj_tail {c : Char} {l : List Char} (h : noAdj (c :: l) = true) :
    noAdj l = true := by
  cases l with
  | nil => rfl
  | cons d l => simp [noAdj_cons_cons] at h; exact h.2

theorem noAdj_cons_of_ne {c : Char} {l : List Char} (hc : c ≠ '-')
    (hl : noAdj l = true) : noAdj (c :: l) = true := by
  cases l with
  | nil => rfl
  | cons d l => simp [noAdj_cons_cons, hl, hc]

theorem noAdj_cons_of_head {c : Char} {l : List Char} (hh : l.head? ≠ some '-')
    (hl : noAdj l = true) : noAdj (c :: l) = true := by
  cases l with
  | nil => rfl
  | cons d l =>
    simp only [List.head?] at hh
    simp [noAdj_cons_cons, hl]
    exact Or.inr (fun hd => hh (by rw [hd]))

theorem mem_collapseAux {c : Char} :
    ∀ (cs : List Char) (b : Bool), c ∈ collapseAux b cs →
      isSlugChar c = true ∨ c = '-'
  | [], _, h => by simp [collapseAux] at h
  | d :: cs, b, h => by
    by_cases hd : isSlugChar d
    · rw [collapseAux, if_pos hd] at h
      rcases List.mem_cons.mp h with h | h
      · exact Or.inl (h ▸ hd)
      · exact mem_collapseAux cs false h
    · rw [collapseAux, if_neg hd] at h
      cases b with
      | true => exact mem_collapseAux cs true (by simpa using h)
      | false =>
        rcases List.mem_cons.mp (by simpa using h) with h | h
        · exact Or.inr h
        · exact mem_collapseAux cs true h

theorem head_collapseAux_true {c : Char} :
    ∀ cs : List Char, (collapseAux true cs).head? = some c → isSlugChar c = true
  | [], h => by simp [collapseAux] at h
  | d :: cs, h => by
    by_cases hd : isSlugChar d
    · rw [collapseAux, if_pos hd] at h
      simp only [List.head?, Option.some.injEq] at h
      exact h ▸ hd
    · rw [collapseAux, if_neg hd] at h
      simp only [if_pos rfl] at h
      exact head_collapseAux_true cs h

theorem head_collapseAux_true_ne (cs : List Char) :
    (collapseAux true cs).head? ≠ some '-' := by
  intro h
  have := head_collapseAux_true cs h
  simp [isSlugChar] at this

theorem noAdj_collapseAux : ∀ (cs : List Char) (b : Bool),
    noAdj (collapseAux b cs) = true
  | [], _ => rfl
  | c :: cs, b => by
    by_cases hc : isSlugChar c
    · rw [collapseAux, if_pos hc]
      have hcne : c ≠ '-' := fun h => by simp [h, isSlugChar] at hc
      exact noAdj_cons_of_ne hcne (noAdj_collapseAux cs false)
    · rw [collapseAux, if_neg hc]
      cases b with
      | true => simpa using noAdj_collapseAux cs true
      | false =>
        simp only [Bool.false_eq_true, if_false]
        exact noAdj_cons_of_head (head_collapseAux_true_ne cs)
          (noAdj_collapseAux cs true)

theorem mem_dropLeadHyphen {c : Char} {cs : List Char}
    (h : c ∈ dropLeadHyphen cs) : c ∈ cs := by
  cases cs with
  | nil => simp [dropLeadHyphen] at h
  | cons d cs =>
    rw [dropLeadHyphen] at h
    split at h
    · exact List.mem_cons_of_mem d h
    · exact h

theorem dropTrailHyphen_singleton (c : Char) :
    dropTrailHyphen [c] = if c = '-' then [] else [c] := rfl

theorem dropTrailHyphen_cons_cons (c d : Char) (cs : List Char) :
    dropTrailHyphen (c :: d :: cs) = c :: dropTrailHyphen (d :: cs) := rfl

theorem mem_dropTrailHyphen {c : Char} :
    ∀ cs : List Char, c ∈ dropTrailHyphen cs → c ∈ cs
  | [], h => by simp [dropTrailHyphen] at h
  | [d], h => by
    rw [dropTrailHyphen_singleton] at h
    split at h
    · simp at h
    · exact h
  | d :: e :: cs, h => by
    rw [dropTrailHyphen_cons_cons] at h
    rcases List.mem_cons.mp h with h | h
    · exact h ▸ List.mem_cons_self d _
    · exact List.mem_cons_of_mem d (mem_dropTrailHyphen (e :: cs) h)

theorem noAdj_dropLeadHyphen {cs : List Char} (h : noAdj cs = true) :
    noAdj (dropLeadHyphen cs) = true := by
  cases cs with
  | nil => rfl
  | cons d cs =>
    rw [dropLeadHyphen]
    split
    · exact noAdj_tail h
    · exact h

theorem head?_dropTrailHyphen :
    ∀ cs : List Char, (dropTrailHyphen cs).head? = none ∨
      (dropTrailHyphen cs).head? = cs.head?
  | [] => Or.inl rfl
  | [c] => by
    rw [dropTrailHyphen_singleton]
    split
    · exact Or.inl rfl
    · exact Or.inr rfl
  | c :: d :: cs => by
    rw [dropTrailHyphen_cons_cons]
    exact Or.inr rfl

theorem noAdj_dropTrailHyphen :
    ∀ cs : List Char, noAdj cs = true → noAdj (dropTrailHyphen cs) = true
  | [], _ => rfl
  | [c], _ => by
    rw [dropTrailHyphen_singleton]; split
    · rfl
    · rfl
  | c :: d :: cs, h => by
    rw [dropTrailHyphen_cons_cons]
    have htail : noAdj (dropTrailHyphen (d :: cs)) = true :=
      noAdj_dropTrailHyphen (d :: cs) (noAdj_tail h)
    rcases head?_dropTrailHyphen (d :: cs) with hh | hh
    · have : dropTrailHyphen (d :: cs) = [] := by
        cases hdt : dropTrailHyphen (d :: cs) with
        | nil => rfl
        | cons x xs => rw [hdt] at hh; simp at hh
      rw [this]
      rfl
    · cases hdt : dropTrailHyphen (d :: cs) with
      | nil => rfl
      | cons x xs =>
        rw [hdt] at hh htail
        simp only [List.head?, Option.some.injEq] at hh
        rw [noAdj_cons_cons, htail]
        rw [noAdj_cons_cons] at h
        simp only [Bool.and_eq_true, Bool.not_eq_true', Bool.and_eq_false_iff] at h ⊢
        refine ⟨?_, trivial⟩
        rcases h.1 with h1 | h1
        · exact Or.inl h1
        · exact Or.inr (by rw [hh, h1])

theorem head?_dropLeadHyphen_ne {cs : List Char} (h : noAdj cs = true) :
    (dropLeadHyphen cs).head? ≠ some '-' := by
  cases cs with
  | nil => simp [dropLeadHyphen]
  | cons d cs =>
    rw [dropLeadHyphen]
    split
    · rename_i hd
      cases cs with
      | nil => simp
      | cons e cs =>
        rw [hd] at h
        rw [noAdj_cons_cons] at h
        simp only [Bool.and_eq_true, Bool.not_eq_true', Bool.and_eq_false_iff] at h
        rcases h.1 with h1 | h1
        · simp at h1
        · simp only [List.head?, ne_eq, Option.some.injEq]
          intro he
          rw [he] at h1
          simp at h1
    · rename_i hd
      simp only [List.head?, ne_eq, Option.some.injEq]
      exact hd

theorem getLast?_dropTrailHyphen_ne :
    ∀ cs : List Char, noAdj cs = true →
      (dropTrailHyphen cs).getLast? ≠ some '-'
  | [], _ => by simp [dropTrailHyphen]
  | [c], _ => by
    rw [dropTrailHyphen_singleton]
    split
    · simp
    · rename_i hc
      simpa using hc
  | c :: d :: cs, h => by
    rw [dropTrailHyphen_cons_cons]
    cases hdt : dropTrailHyphen (d :: cs) with
    | nil =>
      have hdc : d = '-' ∧ cs = [] := by
        cases cs with
        | nil =>
          rw [dropTrailHyphen_singleton] at hdt
          constructor
          · by_contra hne
            rw [if_neg hne] at hdt
            simp at hdt
          · rfl
        | cons e cs => rw [dropTrailHyphen_cons_cons] at hdt; simp at hdt
      have hcne : c ≠ '-' := by
        rw [hdc.1] at h
        rw [noAdj_cons_cons] at h
        simp only [Bool.and_eq_true, Bool.not_eq_true', Bool.and_eq_false_iff] at h
        rcases h.1 with h1 | h1
        · simpa using h1
        · simp at h1
      simpa using hcne
    | cons x xs =>
      rw [← hdt]
      have : (c :: dropTrailHyphen (d :: cs)).getLast? = (dropTrailHyphen (d :: cs)).getLast? := by
        rw [hdt]
        rw [List.getLast?_cons_cons]
      rw [this]
      exact getLast?_dropTrailHyphen_ne (d :: cs) (noAdj_tail h)

/-- Shape invariant of a normalised slug: every character is `[a-z0-9]`
or a hyphen, no two hyphens are adjacent, and no hyphen leads or
trails. -/
def SlugNormal (cs : List Char) : Prop :=
  (∀ c ∈ cs, isSlugChar c = true ∨ c = '-') ∧ noAdj cs = true ∧
    cs.head? ≠ some '-' ∧ cs.getLast? ≠ some '-'

theorem slugNormal_slugify (s : String) : SlugNormal (slugify s).toList := by
  show SlugNormal (dropTrailHyphen (dropLeadHyphen (collapseRuns (lowerL s.toList))))
  have hbAdj : noAdj (collapseRuns (lowerL s.toList)) = true :=
    noAdj_collapseAux _ false
  have hdl : noAdj (dropLeadHyphen (collapseRuns (lowerL s.toList))) = true :=
    noAdj_dropLeadHyphen hbAdj
  refine ⟨?_, ?_, ?_, ?_⟩
  · intro c hc
    exact mem_collapseAux _ false (mem_dropLeadHyphen (mem_dropTrailHyphen _ hc))
  · exact noAdj_dropTrailHyphen _ hdl
  · rcases head?_dropTrailHyphen (dropLeadHyphen (collapseRuns (lowerL s.toList))) with hh | hh
    · rw [hh]; simp
    · rw [hh]; exact head?_dropLeadHyphen_ne hbAdj
  · exact getLast?_dropTrailHyphen_ne _ hdl

theorem slugMatchAux_of_normal :
    ∀ (cs : List Char) (b : Bool),
      (∀ c ∈ cs, isSlugChar c = true ∨ c = '-') → noAdj cs = true →
      (b = false → cs ≠ [] ∧ cs.head? ≠ some '-') →
      cs.getLast? ≠ some '-' →
      slugMatchAux b cs = true
  | [], b, _, _, hb, _ => by
    cases b with
    | true => rfl
    | false => exact absurd rfl (hb rfl).1
  | c :: cs, b, halpha, hadj, hb, hlast => by
    by_cases hc : isSlugChar c
    · rw [slugMatchAux, if_pos hc]
      apply slugMatchAux_of_normal cs true
      · exact fun x hx => halpha x (List.mem_cons_of_mem c hx)
      · exact noAdj_tail hadj
      · intro h; simp at h
      · cases cs with
        | nil => simp
        | cons d ds => rw [List.getLast?_cons_cons] at hlast; exact hlast
    · have hc' : c = '-' := by
        rcases halpha c (List.mem_cons_self c cs) with h | h
        · exact absurd h hc
        · exact h
      cases b with
      | false =>
        exact absurd (by rw [hc']; rfl : (c :: cs).head? = some '-') (hb rfl).2
      | true =>
        rw [slugMatchAux, if_neg hc, if_pos hc']
        simp only [Bool.true_and]
        have hcsne : cs ≠ [] := by
          intro h
          subst h
          rw [hc'] at hlast
          simp at hlast
        apply slugMatchAux_of_normal cs false
        · exact fun x hx => halpha x (List.mem_cons_of_mem c hx)
        · exact noAdj_tail hadj
        · intro _
          refine ⟨hcsne, ?_⟩
          cases cs with
          | nil => simp
          | cons d ds =>
            rw [hc'] at hadj
            rw [noAdj_cons_cons] at hadj
            simp only [Bool.and_eq_true, Bool.not_eq_true', Bool.and_eq_false_iff] at hadj
            rcases hadj.1 with h1 | h1
            · simp at h1
            · simp only [List.head?, ne_eq, Option.some.injEq]
              intro hd
              rw [hd] at h1
              simp at h1
        · cases cs with
          | nil => exact absurd rfl hcsne
          | cons d ds => rw [List.getLast?_cons_cons] at hlast; exact hlast

theorem toLower_eq_self {c : Char} (h : isSlugChar c = true ∨ c = '-') :
    Char.toLower c = c := by
  rcases h with h | h
  · simp only [isSlugChar, Bool.or_eq_true, Bool.and_eq_true, decide_eq_true_eq] at h
    simp only [Char.toLower]
    rw [if_neg (by omega)]
  · subst h; decide

theorem lowerL_eq_self {cs : List Char}
    (h : ∀ c ∈ cs, isSlugChar c = true ∨ c = '-') : lowerL cs = cs := by
  unfold lowerL
  have hid : ∀ c ∈ cs, Char.toLower c = id c := fun c hc => toLower_eq_self (h c hc)
  rw [List.map_congr_left hid, List.map_id]

theorem collapseAux_eq_self :
    ∀ (cs : List Char) (b : Bool),
      (∀ c ∈ cs, isSlugChar c = true ∨ c = '-') → noAdj cs = true →
      (b = true → cs.head? ≠ some '-') →
      collapseAux b cs = cs
  | [], _, _, _, _ => rfl
  | c :: cs, b, halpha, hadj, hb => by
    by_cases hc : isSlugChar c
    · rw [collapseAux, if_pos hc,
        collapseAux_eq_self cs false
          (fun x hx => halpha x (List.mem_cons_of_mem c hx))
          (noAdj_tail hadj) (by simp)]
    · have hc' : c = '-' := by
        rcases halpha c (List.mem_cons_self c cs) with h | h
        · exact absurd h hc
        · exact h
      cases b with
      | true => exact absurd (by rw [hc']; rfl : (c :: cs).head? = some '-') (hb rfl)
      | false =>
        rw [collapseAux, if_neg hc]
        simp only [Bool.false_eq_true, if_false]
        have hhd : cs.head? ≠ some '-' := by
          cases cs with
          | nil => simp
          | cons d ds =>
            rw [hc'] at hadj
            rw [noAdj_cons_cons] at hadj
            simp only [Bool.and_eq_true, Bool.not_eq_true', Bool.and_eq_false_iff] at hadj
            rcases hadj.1 with h1 | h1
            · simp at h1
            · simp only [List.head?, ne_eq, Option.some.injEq]
              intro hd
              rw [hd] at h1
              simp at h1
        rw [collapseAux_eq_self cs true
          (fun x hx => halpha x (List.mem_cons_of_mem c hx))
          (noAdj_tail hadj) (fun _ => hhd), hc']

theorem dropLeadHyphen_eq_self {cs : List Char} (h : cs.head? ≠ some '-') :
    dropLeadHyphen cs = cs := by
  cases cs with
  | nil => rfl
  | cons c cs =>
    rw [dropLeadHyphen, if_neg]
    intro hc
    exact h (by rw [hc]; rfl)

theorem dropTrailHyphen_eq_self :
    ∀ cs : List Char, cs.getLast? ≠ some '-' → dropTrailHyphen cs = cs
  | [], _ => rfl
  | [c], h => by
    rw [dropTrailHyphen_singleton, if_neg]
    intro hc
    exact h (by rw [hc]; rfl)
  | c :: d :: cs, h => by
    rw [dropTrailHyphen_cons_cons,
      dropTrailHyphen_eq_self (d :: cs) (by rw [List.getLast?_cons_cons] at h; exact h)]

theorem slugify_eq_self_of_normal {cs : List Char} (h : SlugNormal cs) :
    slugify (String.mk cs) = String.mk cs := by
  obtain ⟨ha, hn, hh, hl⟩ := h
  unfold slugify
  congr 1
  show dropTrailHyphen (dropLeadHyphen (collapseRuns (lowerL cs))) = cs
  rw [lowerL_eq_self ha,
    show collapseRuns cs = cs from collapseAux_eq_self cs false ha hn (by simp),
    dropLeadHyphen_eq_self hh, dropTrailHyphen_eq_self cs hl]

/-! ## Support lemmas for the content formatter and the feed -/

theorem isEmpty_mk_cons (c : Char) (l : List Char) :
    String.isEmpty (String.mk (c :: l)) = false := by
  cases h : String.isEmpty (String.mk (c :: l))
  · rfl
  · have h2 := (String.isEmpty_iff (String.mk (c :: l))).mp h
    have h3 : (c :: l) = [] := congrArg String.toList h2
    simp at h3

theorem isEmpty_false_of_ne {s : String} (h : s ≠ "") : s.isEmpty = false := by
  cases he : s.isEmpty
  · rfl
  · exact absurd ((String.isEmpty_iff s).mp he) h

theorem splitOnNN_ne_nil : ∀ cs : List Char, splitOnNN cs ≠ []
  | [] => by simp [splitOnNN]
  | [c] => by simp [splitOnNN]
  | c :: d :: rest => by
    rw [splitOnNN]
    split
    · simp
    · cases splitOnNN (d :: rest) with
      | nil => simp
      | cons p ps => simp

theorem formatContent_mk_lt_cons (l : List Char) :
    formatContent (some (String.mk ('<' :: l))) = String.mk ('<' :: l) := by
  rw [formatContent]
  rw [isEmpty_mk_cons]
  have : hasChar '<' (String.mk ('<' :: l)).toList = true := by
    show hasChar '<' ('<' :: l) = true
    rw [hasChar]
    simp
  rw [this]
  simp

theorem leadsWith_append : ∀ p t : List Char, leadsWith p (p ++ t) = true
  | [], _ => rfl
  | c :: p, t => by
    rw [List.cons_append, leadsWith]
    simp [leadsWith_append p t]

theorem containsSub_tail {pat c} {cs : List Char}
    (h : containsSub pat (c :: cs) = false) : containsSub pat cs = false := by
  rw [containsSub] at h
  exact (Bool.or_eq_false_iff.mp h).2

theorem splitFirst_cdataTerm :
    ∀ cs : List Char, containsSub cdataTerm cs = false →
      splitFirst cdataTerm (cs ++ cdataTerm) = some (cs, [])
  | [], _ => by decide
  | c :: cs, h => by
    rw [List.cons_append, splitFirst]
    cases hl : leadsWith cdataTerm (c :: (cs ++ cdataTerm)) with
    | false =>
      simp only [Bool.false_eq_true, if_false]
      rw [splitFirst_cdataTerm cs (containsSub_tail h)]
    | true =>
      exfalso
      cases cs with
      | nil => simp [cdataTerm, leadsWith] at hl
      | cons d cs' =>
        cases cs' with
        | nil => simp [cdataTerm, leadsWith] at hl
        | cons e cs'' =>
          simp only [cdataTerm, List.cons_append, leadsWith, Bool.and_eq_true,
            beq_iff_eq] at hl
          rw [containsSub, Bool.or_eq_false_iff] at h
          have hfront : leadsWith cdataTerm (c :: d :: e :: cs'') = true := by
            simp only [cdataTerm, leadsWith, Bool.and_eq_true, beq_iff_eq]
            exact ⟨hl.1, hl.2.1, hl.2.2.1, trivial⟩
          rw [hfront] at h
          exact absurd h.1 (by simp)

/-! ## Example records used by the claims -/

/-- Example article dated 2024-01-01. -/
def artJan : Article :=
  { emptyArticle with title := some "january piece", date := some "2024-01-01" }

/-- Example article dated 2024-03-01. -/
def artMar : Article :=
  { emptyArticle with title := some "march piece", date := some "2024-03-01" }

/-- Example article with both timestamp fields missing. -/
def artNoDate : Article :=
  { emptyArticle with title := some "undated piece" }

/-- Twenty-five distinct articles. -/
def articles25 : List Article :=
  (List.range 25).map (fun i => { emptyArticle with title := some (toString i) })

/-! ## Claims -/

/-- C1 (counterexample): when `JSON.parse` throws on malformed input the
`catch` of `loadArticles` substitutes the single built-in placeholder
article and returns normally — the build is not aborted, contradicting
the claim that malformed JSON is fatal. -/
theorem loadArticles_malformed_json_substitutes_placeholder :
    loadArticles (.error "SyntaxError: Unexpected token") "2024-01-01T00:00:00.000Z" =
      createSampleArticles "2024-01-01T00:00:00.000Z" ∧
    (loadArticles (.error "SyntaxError: Unexpected token")
      "2024-01-01T00:00:00.000Z").length = 1 :=
  ⟨rfl, rfl⟩

/-- C1 (amended): every throw inside the `try` of `loadArticles` — a
read failure or a `JSON.parse` `SyntaxError` — is caught and replaced by
the built-in sample-article list, and the build continues; a successful
read and parse is sorted and returned. -/
theorem loadArticles_error_handling (msg nowIso : String) (arts : List Article) :
    loadArticles (.error msg) nowIso = createSampleArticles nowIso ∧
    loadArticles (.ok arts) nowIso = sortArticles arts :=
  ⟨rfl, rfl⟩

/-- C2 (counterexample): a present but unparseable `date` value does not
resolve to the current time (777); it yields an invalid date. -/
theorem articleDateValue_unparseable_not_now :
    articleDateValue { emptyArticle with date := some "not-a-date" } 777 ≠ some 777 ∧
    articleDateValue { emptyArticle with date := some "not-a-date" } 777 = none := by
  decide

/-- C2 (amended): date resolution prefers a truthy `date` field over
`published_at`, resolves to the current time exactly when both fields
are absent or empty, and a present but unparseable value yields an
invalid date rather than the current time. -/
theorem articleDateValue_resolution (a : Article) (now : Int) :
    (truthy a.date = true → articleDateValue a now = jsDateParse (a.date.getD "")) ∧
    (truthy a.date = false → truthy a.published_at = true →
      articleDateValue a now = jsDateParse (a.published_at.getD "")) ∧
    (truthy a.date = false → truthy a.published_at = false →
      articleDateValue a now = some now) := by
  refine ⟨?_, ?_, ?_⟩
  · intro h1
    rw [articleDateValue, jsOrOpt, h1]
    simp only [if_true]
    cases hd : a.date with
    | none => rw [hd] at h1; simp [truthy] at h1
    | some s => simp
  · intro h1 h2
    rw [articleDateValue, jsOrOpt, h1, h2]
    simp only [Bool.false_eq_true, if_false, if_true]
    cases hp : a.published_at with
    | none => rw [hp] at h2; simp [truthy] at h2
    | some s => simp
  · intro h1 h2
    rw [articleDateValue, jsOrOpt, h1, h2]
    simp

/-- C2 (witness): with both timestamp fields absent the resolved value
is the current time. -/
theorem articleDateValue_resolution_witness :
    articleDateValue emptyArticle 42 = some 42 :=
  (articleDateValue_resolution emptyArticle 42).2.2 rfl rfl

/-- C3 (counterexample): a title consisting only of non-alphanumeric
characters derives the empty slug, which is neither a match of
`[a-z0-9]+(-[a-z0-9]+)*` nor the literal placeholder. -/
theorem getArticleSlug_empty_on_symbols :
    getArticleSlug { emptyArticle with title := some "!!!" } = "" ∧
    matchesSlug ("" : String).toList = false ∧ ("" : String) ≠ "untitled" := by
  decide

/-- C3 (amended): every derived slug either matches
`[a-z0-9]+(-[a-z0-9]+)*` (the placeholder "untitled" itself matches) or
is the empty string, the latter exactly when the selected field collapses
to hyphens alone. -/
theorem getArticleSlug_pattern (a : Article) :
    getArticleSlug a = "" ∨ matchesSlug (getArticleSlug a).toList = true := by
  obtain ⟨ha, hn, hh, hl⟩ :=
    slugNormal_slugify (jsOrStr a.slug (jsOrStr a.id (jsOrStr a.title "untitled")))
  by_cases hc : (getArticleSlug a).toList = []
  · left
    calc getArticleSlug a = String.mk (getArticleSlug a).toList := rfl
    _ = "" := by rw [hc]
  · right
    show slugMatchAux false (getArticleSlug a).toList = true
    apply slugMatchAux_of_normal _ false ha hn _ hl
    intro _
    exact ⟨hc, hh⟩

/-- C4 (counterexample): content containing the angle bracket `'>'` but
no `'<'` is not passed through unchanged — it is paragraph-wrapped — so
the heuristic is not "any angle-bracket character". -/
theorem formatContent_gt_not_passthrough :
    hasChar '>' "a > b".toList = true ∧
    formatContent (some "a > b") ≠ "a > b" ∧
    formatContent (some "a > b") = "<p>a > b</p>" := by
  decide

/-- C4 (amended): the markup heuristic tests only for `'<'`: content
without `'<'` is split on double newlines, each segment trimmed, wrapped
in a paragraph tag and concatenated with no separator; content containing
`'<'` is returned unchanged; empty or absent content yields the empty
string. -/
theorem formatContent_cases (s : String) :
    (hasChar '<' s.toList = false → s.isEmpty = false →
      formatContent (some s) =
        String.mk (((splitOnNN s.toList).map wrapParagraph).flatten)) ∧
    (hasChar '<' s.toList = true → formatContent (some s) = s) ∧
    formatContent (some "") = "" ∧ formatContent none = "" := by
  refine ⟨?_, ?_, rfl, rfl⟩
  · intro h1 h2
    rw [formatContent, h2, h1]
    simp
  · intro h1
    have hne : s.isEmpty = false := by
      cases he : s.isEmpty
      · rfl
      · have hs : s = "" := (String.isEmpty_iff s).mp he
        rw [hs] at h1
        simp [hasChar] at h1
    rw [formatContent, hne, h1]
    simp

/-- C4 (witness): the spec example "Hello\n\nWorld" renders as two
paragraph-wrapped segments. -/
theorem formatContent_cases_witness :
    formatContent (some "Hello\n\nWorld") = "<p>Hello</p><p>World</p>" := by
  have h := (formatContent_cases "Hello\n\nWorld").1 (by decide) (by decide)
  exact h.trans (by decide)

/-- C5 (counterexample): for content "..." the excerpt ends in the
three-character ellipsis although the stripped content is only 3
characters long, refuting the claimed equivalence "ellipsis present iff
stripped content exceeded 150 characters". -/
theorem extractExcerpt_ellipsis_not_iff :
    ¬((endsWithEllipsis (extractExcerpt (some "...")) = true) ↔
      150 < (strippedOf (some "...")).length) := by
  decide

/-- C5 (amended): the excerpt never exceeds 153 characters (150 plus the
ellipsis), and the ellipsis is appended — the excerpt is exactly the
first 150 stripped characters followed by "..." — precisely when the
tag-stripped, trimmed content exceeds 150 characters; an excerpt may
still end in dots the content itself supplied. -/
theorem extractExcerpt_length_invariant (c : Option String) :
    (extractExcerpt c).length ≤ 153 ∧
    (150 < (strippedOf c).length ↔
      extractExcerpt c = String.mk ((strippedOf c).take 150) ++ "...") := by
  match c with
  | none =>
    constructor
    · decide
    · constructor
      · intro h; simp [strippedOf] at h
      · intro h; simp [extractExcerpt, strippedOf] at h
  | some s =>
    cases hse : s.isEmpty with
    | true =>
      have h0 : extractExcerpt (some s) = "" := by rw [extractExcerpt, hse]; simp
      have h1 : strippedOf (some s) = [] := by simp [strippedOf, hse]
      rw [h0, h1]
      constructor
      · decide
      · constructor
        · intro h; simp at h
        · intro h; exact absurd h (by decide)
    | false =>
      have h1 : strippedOf (some s) = strippedText s := by simp [strippedOf, hse]
      rw [extractExcerpt, hse, h1]
      simp only [Bool.false_eq_true, if_false]
      by_cases hlen : 150 < (strippedText s).length
      · rw [if_pos hlen]
        constructor
        · rw [String.length_append]
          have h1 : ((strippedText s).take 150).length ≤ 150 :=
            List.length_take_le 150 (strippedText s)
          show ((strippedText s).take 150).length + 3 ≤ 153
          omega
        · exact ⟨fun _ => rfl, fun _ => hlen⟩
      · rw [if_neg hlen]
        constructor
        · show (strippedText s).length ≤ 153
          omega
        · constructor
          · intro h; exact absurd h hlen
          · intro heq
            exfalso
            have hL0 := congrArg String.length heq
            rw [String.length_append] at hL0
            have hL : (strippedText s).length =
                ((strippedText s).take 150).length + 3 := hL0
            rw [List.length_take] at hL
            omega

/-- C6: provided every article's timestamp field is parseable or absent
(an unparseable present date makes the JavaScript comparator return
`NaN`, which `Array#sort` treats as equality), the loaded collection is
ordered newest-first by the comparator key — records missing both fields
carry the epoch key `new Date(0)` — and is a permutation of the input;
in particular the timestamps [2024-01-01, 2024-03-01, missing] come out
in the order [2024-03-01, 2024-01-01, missing]. -/
theorem loadArticles_sorted_newest_first (l : List Article) (nowIso : String)
    (_h : ∀ a ∈ l, (sortKey a).isSome = true) :
    List.Pairwise (fun x y => sortKeyD y ≤ sortKeyD x) (loadArticles (.ok l) nowIso) ∧
    (loadArticles (.ok l) nowIso).Perm l ∧
    loadArticles (.ok [artJan, artMar, artNoDate]) nowIso =
      [artMar, artJan, artNoDate] := by
  refine ⟨?_, ?_, ?_⟩
  · exact (List.sorted_insertionSort articleGE l).imp (fun hab => hab)
  · exact List.perm_insertionSort articleGE l
  · show sortArticles [artJan, artMar, artNoDate] = [artMar, artJan, artNoDate]
    decide

/-- C6 (witness): the ordering facts instantiated at the example list
with dates [2024-01-01, 2024-03-01, missing]. -/
theorem loadArticles_sorted_newest_first_witness :
    List.Pairwise (fun x y => sortKeyD y ≤ sortKeyD x)
      (loadArticles (.ok [artJan, artMar, artNoDate]) "now") ∧
    (loadArticles (.ok [artJan, artMar, artNoDate]) "now").Perm
      [artJan, artMar, artNoDate] ∧
    loadArticles (.ok [artJan, artMar, artNoDate]) "now" =
      [artMar, artJan, artNoDate] :=
  loadArticles_sorted_newest_first [artJan, artMar, artNoDate] "now" (by decide)

/-- C7: the feed's item list contains `min 20 n` items — a prefix of the
item renderings of the full newest-first collection, i.e. exactly the 20
most recent articles in collection order — and with 25 articles exactly
20 items. -/
theorem rssFeedItems_cap (l : List Article) (now : Int) :
    (rssFeedItems l now).length = min 20 l.length ∧
    rssFeedItems l now <+: l.map (fun a => rssItem a now) ∧
    (rssFeedItems articles25 now).length = 20 := by
  refine ⟨?_, ?_, ?_⟩
  · rw [rssFeedItems, List.length_map, List.length_take]
  · rw [rssFeedItems]
    have hp := List.take_prefix 20 (l.map (fun a => rssItem a now))
    rwa [← List.map_take] at hp
  · rw [rssFeedItems, List.length_map, List.length_take]
    rw [show articles25.length = 25 from by
      rw [articles25, List.length_map, List.length_range]]
    decide

/-- C8 (counterexample): the record with slug field "!!!" derives the
empty slug; re-deriving from a record whose slug field is that derived
(empty) slug yields "untitled" instead, so derivation is not idempotent
on empty slugs. -/
theorem getArticleSlug_not_idempotent_on_empty :
    getArticleSlug { emptyArticle with slug := some "!!!" } = "" ∧
    getArticleSlug { { emptyArticle with slug := some "!!!" } with
      slug := some (getArticleSlug { emptyArticle with slug := some "!!!" }) } =
      "untitled" := by
  decide

/-- C8 (amended): slug derivation is a pure function of the record
(deterministic), and whenever the derived slug is non-empty, re-deriving
from the record whose slug field is set to that slug yields the same
slug. -/
theorem getArticleSlug_idempotent (a : Article) (h : getArticleSlug a ≠ "") :
    getArticleSlug { a with slug := some (getArticleSlug a) } = getArticleSlug a := by
  have hne : (getArticleSlug a).isEmpty = false := isEmpty_false_of_ne h
  show slugify (jsOrStr (some (getArticleSlug a))
    (jsOrStr a.id (jsOrStr a.title "untitled"))) = getArticleSlug a
  rw [jsOrStr, hne]
  simp only [Bool.false_eq_true, if_false]
  exact slugify_eq_self_of_normal (slugNormal_slugify _)

/-- C8 (witness): idempotence at a record titled "Test" (derived slug
"test"). -/
theorem getArticleSlug_idempotent_witness :
    getArticleSlug { { emptyArticle with title := some "Test" } with
      slug := some (getArticleSlug { emptyArticle with title := some "Test" }) } =
      getArticleSlug { emptyArticle with title := some "Test" } :=
  getArticleSlug_idempotent { emptyArticle with title := some "Test" } (by decide)

/-- C9 (counterexample): a title containing the sequence "]]>"
terminates the CDATA section early — the reader recovers only "a" and
the stray input "b]]>" leaks into the surrounding document — so the
wrapping used for feed titles and descriptions does not protect "]]>". -/
theorem cdata_breaks_on_terminator :
    cdataParse (cdata "a]]>b") = some ("a", "b]]>") ∧
    cdataParse (cdata "a]]>b") ≠ some ("a]]>b", "") := by
  decide

/-- C9 (amended): the CDATA wrapping of feed titles and descriptions is
a faithful literal-text mechanism for every string that does not contain
the terminator "]]>": the reader recovers exactly the wrapped text with
no leftover input, so markup-significant characters such as `<`, `>` and
`&` cannot break the document; a text containing "]]>" does break it. -/
theorem cdata_roundtrip (s : String) (h : containsSub cdataTerm s.toList = false) :
    cdataParse (cdata s) = some (s, "") := by
  rw [cdataParse]
  have hlist : (cdata s).toList = "<![CDATA[".toList ++ (s.toList ++ cdataTerm) := by
    show ("<![CDATA[" ++ s ++ "]]>").data = "<![CDATA[".data ++ (s.data ++ cdataTerm)
    rw [String.data_append, String.data_append]
    rw [List.append_assoc]
    rfl
  rw [hlist, leadsWith_append]
  simp only [if_true]
  rw [show ("<![CDATA[".toList ++ (s.toList ++ cdataTerm)).drop 9 = s.toList ++ cdataTerm from by
    rw [show (9 : Nat) = ("<![CDATA[".toList).length from rfl, List.drop_left]]
  rw [splitFirst_cdataTerm s.toList h]
  rfl

/-- C9 (witness): markup-significant characters other than the
terminator are preserved verbatim by the CDATA wrapping. -/
theorem cdata_roundtrip_witness :
    cdataParse (cdata "<b>&A \"quote\"</b>") = some ("<b>&A \"quote\"</b>", "") :=
  cdata_roundtrip "<b>&A \"quote\"</b>" (by decide)

/-- C10: `formatContent` is idempotent — paragraph-wrapped output always
starts with `'<'` and is therefore passed through unchanged by a second
application, markup input is passed through twice, and empty input maps
to the empty string, which maps to itself. -/
theorem formatContent_idempotent (c : Option String) :
    formatContent (some (formatContent c)) = formatContent c := by
  match c with
  | none => decide
  | some s =>
    cases hse : s.isEmpty with
    | true =>
      have h1 : formatContent (some s) = "" := by rw [formatContent, hse]; simp
      rw [h1]
      decide
    | false =>
      cases hlt : hasChar '<' s.toList with
      | true =>
        have h1 : formatContent (some s) = s := by
          rw [formatContent, hse, hlt]
          simp
        rw [h1]
        exact h1
      | false =>
        have h1 : formatContent (some s) =
            String.mk (((splitOnNN s.toList).map wrapParagraph).flatten) := by
          rw [formatContent, hse, hlt]
          simp
        rw [h1]
        cases hsp : splitOnNN s.toList with
        | nil => exact absurd hsp (splitOnNN_ne_nil _)
        | cons p ps =>
          simp only [List.map_cons, List.flatten_cons, wrapParagraph]
          rw [show ("<p>".toList : List Char) = '<' :: 'p' :: '>' :: [] from rfl]
          simp only [List.cons_append, List.append_assoc, List.nil_append]
          exact formatContent_mk_lt_cons _
